import Mathlib

/-!
Verification of the poets grid construction and resampling module
(`poets/grid/grids.py`, `poets/image/resampling.py`).

Coordinates are embedded as rationals.  The external geometry library
(shapely) is embedded, following the spec's External Interfaces section, as a
`Region` carrying the two required containment predicates: the strict
`within` test used by the boundary trimmer and the inclusive `contains` test
used by point selection.
-/

namespace Poets

/-- External polygon geometry: a region with a strict (interior) containment
test `within` and an inclusive containment test `contains`, as required by
the spec's External Interfaces section. -/
structure Region where
  within : ℚ → ℚ → Bool
  contains : ℚ → ℚ → Bool

/-- `numpy.arange start stop step` for a positive step in exact arithmetic:
the values `start + k * step` for `0 ≤ k < ⌈(stop - start) / step⌉`. -/
def arange (start stop step : ℚ) : List ℚ :=
  (List.range (Int.toNat ⌈(stop - start) / step⌉)).map fun (k : Nat) => start + (k : ℚ) * step

/-- Row-major flattening of `np.meshgrid(lons, lats)`: gpi `i * lons.length + j`
carries the point `(lons[j], lats[i])`. -/
def meshFlatten (lons lats : List ℚ) : List (ℚ × ℚ) :=
  (lats.map fun la => lons.map fun lo => (lo, la)).flatten

/-! ### `_remove_blank_frame` (grids.py lines 238-325)

The four border scans each enumerate the outer `⌊n/2⌋` coordinates of an
axis (`lons[:(lons.size / 2)]` under Python 2 integer division), count the
orthogonal-axis points that are not strictly inside the polygon
(`checksum`), record the axis index for deletion while every orthogonal
point is outside, and break at the first coordinate with an interior point.
Deletion then runs `if lons[i] in lon_new: lon_new.remove(lons[i])`, i.e. it
erases the first occurrence of the recorded value. -/

/-- The per-column `checksum` of the left/right boundary scans: how many
latitudes `y` give `Point(x, y).within(poly) == False`. -/
def checksumCol (poly : Region) (lats : List ℚ) (x : ℚ) : Nat :=
  lats.countP fun y => poly.within x y == false

/-- A longitude column is blank when its checksum equals `lats.size`. -/
def emptyCol (poly : Region) (lats : List ℚ) (x : ℚ) : Bool :=
  checksumCol poly lats x == lats.length

/-- The per-row `checksum` of the bottom/top boundary scans. -/
def checksumRow (poly : Region) (lons : List ℚ) (y : ℚ) : Nat :=
  lons.countP fun x => poly.within x y == false

/-- A latitude row is blank when its checksum equals `lons.size`. -/
def emptyRow (poly : Region) (lons : List ℚ) (y : ℚ) : Bool :=
  checksumRow poly lons y == lons.length

/-- One boundary scan: enumerate the given (already sliced) axis values from
index `i`, recording indices while the line is blank, breaking at the first
non-blank line. -/
def scanDels (e : ℚ → Bool) : List ℚ → Nat → List Nat
  | [], _ => []
  | x :: xs, i => if e x then i :: scanDels e xs (i + 1) else []

/-- Indices recorded by the left (resp. bottom) scan over `xs[:(n / 2)]`. -/
def delIdxL (e : ℚ → Bool) (xs : List ℚ) : List Nat :=
  scanDels e (xs.take (xs.length / 2)) 0

/-- Indices recorded by the right (resp. top) scan over `xs[::-1][:(n / 2)]`,
where slot `i` of the reversed axis is recorded as `xs.length - 1 - i`. -/
def delIdxR (e : ℚ → Bool) (xs : List ℚ) : List Nat :=
  (scanDels e (xs.reverse.take (xs.length / 2)) 0).map fun i => xs.length - 1 - i

/-- The deletion loop: for each recorded index `i`, remove the first
occurrence of the value `orig[i]` from the working list if present
(`if lons[i] in lon_new: lon_new.remove(lons[i])`). -/
def removeVals (orig : List ℚ) (dels : List Nat) (cur : List ℚ) : List ℚ :=
  dels.foldl (fun acc i => acc.erase (orig.getD i 0)) cur

/-- Trimming of one axis: both scans collect into the deletion list (left
indices first, as in the source), then the values are removed. -/
def trimAxis (e : ℚ → Bool) (xs : List ℚ) : List ℚ :=
  removeVals xs (delIdxL e xs ++ delIdxR e xs) xs

/-- `_remove_blank_frame(country, lons, lats)`: the longitude axis is trimmed
with the column test (against all of `lats`), the latitude axis with the row
test (against all of `lons`); the two axes are filtered independently. -/
def removeBlankFrame (poly : Region) (lons lats : List ℚ) : List ℚ × List ℚ :=
  (trimAxis (emptyCol poly lats) lons, trimAxis (emptyRow poly lons) lats)

/-- Number of indices recorded by the left/bottom scan: the length of the
blank run at the start of the scanned window. -/
def delCountL (e : ℚ → Bool) (xs : List ℚ) : Nat :=
  ((xs.take (xs.length / 2)).takeWhile e).length

/-- Number of indices recorded by the right/top scan. -/
def delCountR (e : ℚ → Bool) (xs : List ℚ) : Nat :=
  ((xs.reverse.take (xs.length / 2)).takeWhile e).length

/-! ### `_minmaxcoord` (grids.py lines 328-363) -/

/-- `_minmaxcoord(min_threshold, max_threshold)` with the process-wide
resolution `res = Settings.sp_res` passed explicitly:
`minval = int(math.ceil(lo / res)) * res` shifted by a half cell toward or
away from the threshold, symmetrically for the maximum with `floor`. -/
def minmaxcoord (res lo hi : ℚ) : ℚ × ℚ :=
  let minval : ℚ := (⌈lo / res⌉ : ℤ) * res
  let maxval : ℚ := (⌊hi / res⌋ : ℤ) * res
  (if minval - res / 2 < lo then minval + res / 2 else minval - res / 2,
   if maxval + res / 2 > hi then maxval - res / 2 else maxval + res / 2)

/-! ### Regular grids (grids.py lines 34-87) and `_create_grid`
(resampling.py lines 31-50) -/

/-- A regular global grid: the two coordinate axes and the row-major
flattened point list produced from `np.meshgrid(londim, latdim)`. -/
structure RegGrid where
  londim : List ℚ
  latdim : List ℚ
  deriving DecidableEq

/-- Flattened point list of a regular grid (`lon.flatten()` pairs). -/
def RegGrid.points (g : RegGrid) : List (ℚ × ℚ) :=
  meshFlatten g.londim g.latdim

/-- `HundredthDegGrid`: axes `np.arange(-179.995, 180, 0.01)` and
`np.arange(-89.995, 90, 0.01)`. -/
def HundredthDegGrid : RegGrid where
  londim := arange (-179.995) 180 (1/100)
  latdim := arange (-89.995) 90 (1/100)

/-- `TenthDegGrid`: axes `np.arange(-179.95, 180, 0.1)` and
`np.arange(-89.95, 90, 0.1)`. -/
def TenthDegGrid : RegGrid where
  londim := arange (-179.95) 180 (1/10)
  latdim := arange (-89.95) 90 (1/10)

/-- `QuarterDegGrid`: axes `np.arange(-179.875, 180, 0.25)` and
`np.arange(-89.875, 90, 0.25)`. -/
def QuarterDegGrid : RegGrid where
  londim := arange (-179.875) 180 (1/4)
  latdim := arange (-89.875) 90 (1/4)

/-- `OneDegGrid`: axes `np.arange(-179.5, 180, 1)` and
`np.arange(-89.5, 90, 1)`. -/
def OneDegGrid : RegGrid where
  londim := arange (-179.5) 180 1
  latdim := arange (-89.5) 90 1

/-- `_create_grid()`: the `if/elif` chain on `Settings.sp_res`.  The source
has no `else` branch, so a resolution outside the four tested values leaves
`grid` unbound and the function fails (`none`).  Note the `0.25` branch of
the source returns `TenthDegGrid`, not `QuarterDegGrid`. -/
def createGrid (spRes : ℚ) : Option RegGrid :=
  if spRes = 1/100 then some HundredthDegGrid
  else if spRes = 1/10 then some TenthDegGrid
  else if spRes = 1/4 then some TenthDegGrid
  else if spRes = 1 then some OneDegGrid
  else none

/-! ### `CountryGrid` (grids.py lines 90-235) -/

/-- Axis-aligned bounding box, fields in the order of `shp.bbox[0..3]`. -/
structure BBoxQ where
  lonmin : ℚ
  latmin : ℚ
  lonmax : ℚ
  latmax : ℚ

/-- Modelled from the spec: the Country Shape loaded by
`poets.grid.shapes.Shape(country)` lives outside `src/`; per the spec's data
model it is an immutable polygon plus its axis-aligned bounding box. -/
structure ShapeData where
  bbox : BBoxQ
  poly : Region

/-- A country grid: the trimmed axes and the row-major flattened point list;
gpi numbers are positional (`gpidirect`), i.e. gpi = list index. -/
structure CountryGrid where
  shp : ShapeData
  lon_new : List ℚ
  lat_new : List ℚ
  points : List (ℚ × ℚ)

/-- `CountryGrid.__init__(country, resolution=Settings.sp_res)`: reduce each
bbox dimension with `_minmaxcoord`, build candidate axes with
`np.arange(min, max + Settings.sp_res, Settings.sp_res)`, trim with
`_remove_blank_frame`, and flatten the meshgrid.  As in the source, the
`resolution` argument is accepted but never read: every step uses the
process-wide `Settings.sp_res` (here `spRes`). -/
def CountryGrid.build (spRes : ℚ) (shp : ShapeData) (resolution : ℚ) : CountryGrid :=
  let lonmm := minmaxcoord spRes shp.bbox.lonmin shp.bbox.lonmax
  let latmm := minmaxcoord spRes shp.bbox.latmin shp.bbox.latmax
  let lons := arange lonmm.1 (lonmm.2 + spRes) spRes
  let lats := arange latmm.1 (latmm.2 + spRes) spRes
  let trimmed := removeBlankFrame shp.poly lons lats
  { shp := shp, lon_new := trimmed.1, lat_new := trimmed.2,
    points := meshFlatten trimmed.1 trimmed.2 }

/-- Modelled from the spec: `get_bbox_grid_points(latmin, latmax, lonmin,
lonmax)` is inherited from the external `pytesmo.grid.grids.BasicGrid`; per
the spec it "computes the bounding-box index subset (all grid indices whose
coordinates fall in the shape's bbox)". -/
def CountryGrid.get_bbox_grid_points (g : CountryGrid)
    (latmin latmax lonmin lonmax : ℚ) : List Nat :=
  (List.range g.points.length).filter fun gpi =>
    decide (lonmin ≤ (g.points.getD gpi (0, 0)).1) &&
    decide ((g.points.getD gpi (0, 0)).1 ≤ lonmax) &&
    decide (latmin ≤ (g.points.getD gpi (0, 0)).2) &&
    decide ((g.points.getD gpi (0, 0)).2 ≤ latmax)

/-- `get_country_gridpoints()`: take the bbox index subset for the shape's
own bbox, keep the gpis whose point satisfies `poly.contains(Point(lon,
lat))`, and return them with their coordinates. -/
def CountryGrid.get_country_gridpoints (g : CountryGrid) : List (Nat × ℚ × ℚ) :=
  ((g.get_bbox_grid_points g.shp.bbox.latmin g.shp.bbox.latmax
      g.shp.bbox.lonmin g.shp.bbox.lonmax).filter fun gpi =>
    g.shp.poly.contains (g.points.getD gpi (0, 0)).1
      (g.points.getD gpi (0, 0)).2).map fun gpi =>
    (gpi, (g.points.getD gpi (0, 0)).1, (g.points.getD gpi (0, 0)).2)

/-! ### The masking and renaming step of `resample_to_shape`
(resampling.py lines 78-122)

The steps up to and including `resample.resample_to_grid` are external I/O
and regridding; their output enters here as `data`, a mapping from variable
name to a 2D field of (resampled value, source-invalidity mask bit), aligned
with the destination meshgrid arrays `destLon`/`destLat` of shape
`(rows, cols)`. -/

/-- A 2D field of cells: (resampled value, mask bit). -/
abbrev DataField : Type := List (List (ℚ × Bool))

/-- Entry `(i, j)` of a 2D list, with a default. -/
def getD2 {α : Type} (m : List (List α)) (i j : Nat) (d : α) : α :=
  (m.getD i []).getD j d

/-- The mask bits of a field. -/
def fieldMaskBits (f : DataField) : List (List Bool) :=
  f.map fun row => row.map Prod.snd

/-- The combined mask: cell `(i, j)` is masked when the destination point is
not strictly within the polygon, or when the mask of the first variable
(`data[data.keys()[0]].mask[i][j]`) is set. -/
def buildMask (poly : Region) (destLon destLat : List (List ℚ))
    (fmask : List (List Bool)) (rows cols : Nat) : List (List Bool) :=
  (List.range rows).map fun i => (List.range cols).map fun j =>
    !(poly.within (getD2 destLon i j 0) (getD2 destLat i j 0)) ||
      getD2 fmask i j false

/-- Masking one variable.  `np.ma.masked_array(data[key], mask=mask)` has
`keep_mask=True`, so the intermediate array's mask is the OR of the combined
loop mask and the variable's OWN source mask; `dat[data[var].mask == True] =
-99` therefore writes `-99` wherever either is set.  The final
`masked_array(dat, mask=mask, ...)` wraps the plain copy `dat`, so the output
mask bit is the combined loop mask alone.  (That last call spells
`fill_value` as `fill_falue`, a kwarg 2014-era numpy silently ignores; the
`-99` values were already written into the data explicitly.) -/
def applyMaskField (mask : List (List Bool)) (rows cols : Nat) (f : DataField) : DataField :=
  (List.range rows).map fun i => (List.range cols).map fun j =>
    (if getD2 mask i j false || (getD2 f i j (0, false)).2 then (-99 : ℚ)
       else (getD2 f i j (0, false)).1,
     getD2 mask i j false)

/-- The mask-and-rename tail of `resample_to_shape`.  With no variables the
mask loop's `data[data.keys()[0]]` raises unless the grid is empty; with a
variable present and `prefix is None`, `var = prefix + key` raises
(`none`).  Otherwise every variable `key` is replaced by `prefix + '_' +
key` carrying the masked field. -/
def resampleMaskRename (pfx : Option String) (poly : Region)
    (destLon destLat : List (List ℚ)) (rows cols : Nat)
    (data : List (String × DataField)) : Option (List (String × DataField)) :=
  match data with
  | [] => if rows = 0 || cols = 0 then some [] else none
  | (_, f0) :: _ =>
    match pfx with
    | none => none
    | some p => some (data.map fun kf =>
        (p ++ "_" ++ kf.1,
         applyMaskField (buildMask poly destLon destLat (fieldMaskBits f0) rows cols)
           rows cols kf.2))

/-! ### Concrete instances used by witnesses and counterexamples -/

/-- A region that is empty: no point is within or contained. -/
def emptyRegion : Region where
  within := fun _ _ => false
  contains := fun _ _ => false

/-- The whole plane: every point is within and contained. -/
def fullRegion : Region where
  within := fun _ _ => true
  contains := fun _ _ => true

/-- The square country of the spec's end-to-end scenario: open square
`(0,2) × (0,2)` as interior, closed square as inclusive containment. -/
def squareRegion : Region where
  within := fun x y => decide (0 < x ∧ x < 2 ∧ 0 < y ∧ y < 2)
  contains := fun x y => decide (0 ≤ x ∧ x ≤ 2 ∧ 0 ≤ y ∧ y ≤ 2)

/-- A vertical strip `4 ≤ x ≤ 5`, used to exhibit the midpoint-cap behavior
of the boundary trimmer. -/
def stripRegion : Region where
  within := fun x _ => decide (4 ≤ x ∧ x ≤ 5)
  contains := fun x _ => decide (4 ≤ x ∧ x ≤ 5)

/-- The square country shape with bbox `(0, 0, 2, 2)`. -/
def shpSquare : ShapeData where
  bbox := { lonmin := 0, latmin := 0, lonmax := 2, latmax := 2 }
  poly := squareRegion

/-- A degenerate country: bbox `(0, 0, 2, 2)` but an empty polygon, so the
trimmer removes every row and column. -/
def shpEmpty : ShapeData where
  bbox := { lonmin := 0, latmin := 0, lonmax := 2, latmax := 2 }
  poly := emptyRegion

/-- A small square country `[1, 2] x [1, 2]` on an integer lattice, used by
witnesses. -/
def boxRegion12 : Region where
  within := fun x y => decide (1 ≤ x ∧ x ≤ 2 ∧ 1 ≤ y ∧ y ≤ 2)
  contains := fun x y => decide (1 ≤ x ∧ x ≤ 2 ∧ 1 ≤ y ∧ y ≤ 2)

/-! ## Coordinate Range Reducer -/

attribute [local semireducible] Rat.add Rat.mul Rat.sub Rat.inv Rat.ofScientific

/-- C2: for every resolution `r > 0` and interval `(lo, hi)` with
`hi - lo ≥ r`, `_minmaxcoord` returns `(min_center, max_center)` with
`min_center ≤ max_center`, both endpoints of the form `k * r + r / 2` for an
integer `k`, `min_center ≥ lo - r / 2` and `max_center ≤ hi + r / 2`. -/
theorem claim_C2_minmaxcoord_bounds (res lo hi : ℚ) (hres : 0 < res)
    (hgap : res ≤ hi - lo) :
    (minmaxcoord res lo hi).1 ≤ (minmaxcoord res lo hi).2 ∧
    (∃ k : ℤ, (minmaxcoord res lo hi).1 = k * res + res / 2) ∧
    (∃ k : ℤ, (minmaxcoord res lo hi).2 = k * res + res / 2) ∧
    lo - res / 2 ≤ (minmaxcoord res lo hi).1 ∧
    (minmaxcoord res lo hi).2 ≤ hi + res / 2 := by
  have hne : res ≠ 0 := ne_of_gt hres
  have h1 : lo ≤ (⌈lo / res⌉ : ℚ) * res := by
    have h := Int.le_ceil (lo / res)
    have := mul_le_mul_of_nonneg_right h (le_of_lt hres)
    rwa [div_mul_cancel₀ _ hne] at this
  have h2 : (⌈lo / res⌉ : ℚ) * res < lo + res := by
    have h := Int.ceil_lt_add_one (lo / res)
    have := mul_lt_mul_of_pos_right h hres
    rwa [add_mul, one_mul, div_mul_cancel₀ _ hne] at this
  have h3 : (⌊hi / res⌋ : ℚ) * res ≤ hi := by
    have h := Int.floor_le (hi / res)
    have := mul_le_mul_of_nonneg_right h (le_of_lt hres)
    rwa [div_mul_cancel₀ _ hne] at this
  have h4 : hi < (⌊hi / res⌋ : ℚ) * res + res := by
    have h := Int.sub_one_lt_floor (hi / res)
    have := mul_lt_mul_of_pos_right h hres
    rw [sub_mul, one_mul, div_mul_cancel₀ _ hne] at this
    linarith
  have hab : ⌈lo / res⌉ ≤ ⌊hi / res⌋ := by
    apply Int.ceil_le.mpr
    rw [div_le_iff₀ hres]
    linarith
  simp only [minmaxcoord]
  split_ifs with hmin hmax hmax
  · refine ⟨?_, ⟨⌈lo / res⌉, by ring⟩, ⟨⌊hi / res⌋ - 1, by push_cast; ring⟩,
      by linarith, by linarith⟩
    rcases eq_or_lt_of_le hab with heq | hlt
    · exfalso
      rw [heq] at h1 h2 hmin
      linarith
    · have h5 : ⌈lo / res⌉ + 1 ≤ ⌊hi / res⌋ := hlt
      have hq : ((⌈lo / res⌉ : ℚ) + 1) * res ≤ (⌊hi / res⌋ : ℚ) * res := by
        apply mul_le_mul_of_nonneg_right _ (le_of_lt hres)
        exact_mod_cast h5
      linarith [hq]
  · have hq : (⌈lo / res⌉ : ℚ) * res ≤ (⌊hi / res⌋ : ℚ) * res := by
      apply mul_le_mul_of_nonneg_right _ (le_of_lt hres)
      exact_mod_cast hab
    exact ⟨by linarith, ⟨⌈lo / res⌉, by ring⟩, ⟨⌊hi / res⌋, by ring⟩,
      by linarith, by linarith⟩
  · have hq : (⌈lo / res⌉ : ℚ) * res ≤ (⌊hi / res⌋ : ℚ) * res := by
      apply mul_le_mul_of_nonneg_right _ (le_of_lt hres)
      exact_mod_cast hab
    exact ⟨by linarith, ⟨⌈lo / res⌉ - 1, by push_cast; ring⟩,
      ⟨⌊hi / res⌋ - 1, by push_cast; ring⟩, by linarith, by linarith⟩
  · have hq : (⌈lo / res⌉ : ℚ) * res ≤ (⌊hi / res⌋ : ℚ) * res := by
      apply mul_le_mul_of_nonneg_right _ (le_of_lt hres)
      exact_mod_cast hab
    exact ⟨by linarith, ⟨⌈lo / res⌉ - 1, by push_cast; ring⟩,
      ⟨⌊hi / res⌋, by ring⟩, by linarith, by linarith⟩

/-- C2 witness: the reducer's guarantees hold at `r = 1`, `(lo, hi) = (0, 2)`
(the spec's end-to-end square-country scenario, whose axes are `[1/2, 3/2]`). -/
theorem claim_C2_minmaxcoord_bounds_witness :
    (minmaxcoord 1 0 2).1 ≤ (minmaxcoord 1 0 2).2 ∧
    (∃ k : ℤ, (minmaxcoord 1 0 2).1 = k * 1 + 1 / 2) ∧
    (∃ k : ℤ, (minmaxcoord 1 0 2).2 = k * 1 + 1 / 2) ∧
    (0 : ℚ) - 1 / 2 ≤ (minmaxcoord 1 0 2).1 ∧
    (minmaxcoord 1 0 2).2 ≤ 2 + 1 / 2 :=
  claim_C2_minmaxcoord_bounds 1 0 2 (by norm_num) (by norm_num)

/-! ## Regular Grid Builder -/

/-- The length of an `arange` axis. -/
theorem arange_length (start stop step : ℚ) :
    (arange start stop step).length = (⌈(stop - start) / step⌉).toNat := by
  rw [arange, List.length_map, List.length_range]

/-- The flattened meshgrid has one point per (lat, lon) pair. -/
theorem meshFlatten_length (lons lats : List ℚ) :
    (meshFlatten lons lats).length = lats.length * lons.length := by
  induction lats with
  | nil => simp [meshFlatten]
  | cons a t ih =>
    simp only [meshFlatten, List.map_cons, List.flatten_cons, List.length_append,
      List.length_map, List.length_cons] at ih ⊢
    rw [ih]
    ring

set_option maxRecDepth 8000 in
/-- C5 (code bug): at the predefined resolution `0.25`, `_create_grid`
returns `TenthDegGrid` — the `elif Settings.sp_res == 0.25` branch of the
source instantiates `TenthDegGrid`, while `QuarterDegGrid` (whose docstring
announces the 0.25° grid) is never used.  The returned grid's longitude axis
has 3600 entries, not `360 / 0.25 = 1440` as the claim requires.  Moreover a
resolution outside the predefined set leaves the chain without a branch
(`none`, an unbound local in the source) instead of a named
`UnsupportedResolutionError`, a class that exists nowhere in the repository. -/
theorem claim_C5_create_grid_quarter_bug :
    createGrid (1/4) = some TenthDegGrid ∧
    TenthDegGrid.londim.length = 3600 ∧
    TenthDegGrid.latdim.length = 1800 ∧
    ((3600 : ℚ) ≠ 360 / (1/4)) ∧
    QuarterDegGrid.londim.length = 1440 ∧
    QuarterDegGrid.latdim.length = 720 ∧
    TenthDegGrid.points.length = 3600 * 1800 ∧
    createGrid (1/2) = none := by
  refine ⟨by norm_num [createGrid], ?_, ?_, by norm_num, ?_, ?_, ?_, by norm_num [createGrid]⟩
  · rw [show TenthDegGrid.londim = arange (-179.95) 180 (1/10) from rfl, arange_length]
    decide
  · rw [show TenthDegGrid.latdim = arange (-89.95) 90 (1/10) from rfl, arange_length]
    decide
  · rw [show QuarterDegGrid.londim = arange (-179.875) 180 (1/4) from rfl, arange_length]
    decide
  · rw [show QuarterDegGrid.latdim = arange (-89.875) 90 (1/4) from rfl, arange_length]
    decide
  · rw [show TenthDegGrid.points = meshFlatten TenthDegGrid.londim TenthDegGrid.latdim from rfl,
      meshFlatten_length]
    rw [show TenthDegGrid.londim = arange (-179.95) 180 (1/10) from rfl,
      show TenthDegGrid.latdim = arange (-89.95) 90 (1/10) from rfl,
      arange_length, arange_length]
    decide

/-! ## Country Grid Assembler: the `resolution` argument -/

/-- C6 (code bug): `CountryGrid.__init__` accepts a `resolution` argument
(documented as "spatial resolution of the grid") but never reads it; the
reducer and the axis spacing always use the process-wide `Settings.sp_res`.
Construction is therefore independent of the passed resolution, and with
`Settings.sp_res = 1` a request for resolution `1/2` still yields axes
`[1/2, 3/2]` with spacing `1`. -/
theorem claim_C6_resolution_ignored :
    (∀ (spRes : ℚ) (shp : ShapeData) (r r' : ℚ),
      CountryGrid.build spRes shp r = CountryGrid.build spRes shp r') ∧
    (CountryGrid.build 1 shpSquare (1/2)).lon_new = [1/2, 3/2] ∧
    (CountryGrid.build 1 shpSquare (1/2)).lat_new = [1/2, 3/2] := by
  refine ⟨fun spRes shp r r' => rfl, by decide, by decide⟩

/-! ## Country Grid Assembler: degenerate grids -/

/-- Flattening with an empty longitude axis yields no points. -/
theorem meshFlatten_nil_left (lats : List ℚ) : meshFlatten [] lats = [] := by
  simp [meshFlatten, List.flatten_eq_nil_iff]

/-- Flattening with an empty latitude axis yields no points. -/
theorem meshFlatten_nil_right (lons : List ℚ) : meshFlatten lons [] = [] := rfl

/-- C8 (amended): country-grid construction has no failure path — no
`EmptyGridError` (or any error class) exists in the repository.  When
trimming empties an axis, construction still returns a grid, whose point
list is empty. -/
theorem claim_C8_empty_grid_amended (spRes r : ℚ) (shp : ShapeData)
    (h : (CountryGrid.build spRes shp r).lon_new = [] ∨
         (CountryGrid.build spRes shp r).lat_new = []) :
    (CountryGrid.build spRes shp r).points = [] := by
  have hp : (CountryGrid.build spRes shp r).points =
      meshFlatten (CountryGrid.build spRes shp r).lon_new
        (CountryGrid.build spRes shp r).lat_new := rfl
  rcases h with h | h <;> rw [hp, h]
  · exact meshFlatten_nil_left _
  · exact meshFlatten_nil_right _

/-- C8 counterexample: for the degenerate country `shpEmpty` (its polygon
contains no grid point) at resolution 1, construction does not fail — it
produces a grid, with zero gridpoints. -/
theorem claim_C8_no_empty_grid_error_cex :
    (CountryGrid.build 1 shpEmpty 1).lon_new = [] ∧
    (CountryGrid.build 1 shpEmpty 1).lat_new = [] ∧
    (CountryGrid.build 1 shpEmpty 1).points = [] := by
  refine ⟨by decide, by decide, by decide⟩

/-- C8 witness: the amended no-failure behavior at the degenerate input. -/
theorem claim_C8_empty_grid_amended_witness :
    (CountryGrid.build 1 shpEmpty 1).points = [] :=
  claim_C8_empty_grid_amended 1 1 shpEmpty (Or.inl (by decide))

/-! ## Resampling Pipeline -/

/-- C10: when the optional `prefix` argument is omitted (`None`) and at
least one variable is present, the renaming step `var = prefix + key`
fails (`None + str` raises), so `resample_to_shape` produces no result. -/
theorem claim_C10_pfx_none_fails (poly : Region) (destLon destLat : List (List ℚ))
    (rows cols : Nat) (k0 : String) (f0 : DataField)
    (rest : List (String × DataField)) :
    resampleMaskRename none poly destLon destLat rows cols ((k0, f0) :: rest) =
      none := rfl

/-- Reading entry `(i, j)` of a 2D array built from ranges. -/
theorem getD2_rangeMap {α : Type} (rows cols : Nat) (h : Nat → Nat → α) (d : α)
    (i j : Nat) (hi : i < rows) (hj : j < cols) :
    getD2 ((List.range rows).map fun a => (List.range cols).map fun b => h a b)
      i j d = h i j := by
  unfold getD2
  have h1 : (List.map (fun a => List.map (fun b => h a b) (List.range cols))
      (List.range rows)).getD i [] = List.map (fun b => h i b) (List.range cols) := by
    rw [List.getD_eq_getElem _ _ (by simpa using hi)]
    simp
  rw [h1]
  rw [List.getD_eq_getElem _ _ (by simpa using hj)]
  simp

/-- C7 (amended): writing `M` for the combined loop mask built from the
polygon and the mask of the FIRST variable in the data mapping, the masking
step renames every variable `key` to `prefix_key` and yields, for every
variable and every destination cell: the output mask bit is set exactly when
the point is not strictly within the polygon or the first variable's source
cell was invalid (the same combined mask is reused for all variables); the
output value is the fill `-99` exactly when the combined mask is set or the
variable's OWN source cell was invalid (numpy's `keep_mask=True` ORs the
variable's own mask into the intermediate masked array before the `-99`
write); otherwise the cell retains its resampled value.  In particular every
masked cell carries `-99`. -/
theorem claim_C7_mask_amended (p : String) (poly : Region)
    (destLon destLat : List (List ℚ)) (rows cols : Nat)
    (k0 : String) (f0 : DataField) (rest : List (String × DataField)) :
    resampleMaskRename (some p) poly destLon destLat rows cols ((k0, f0) :: rest) =
      some (((k0, f0) :: rest).map fun kf =>
        (p ++ "_" ++ kf.1,
          applyMaskField (buildMask poly destLon destLat (fieldMaskBits f0) rows cols)
            rows cols kf.2)) ∧
    ∀ (f : DataField) (i j : Nat), i < rows → j < cols →
      (getD2 (applyMaskField (buildMask poly destLon destLat (fieldMaskBits f0) rows cols)
          rows cols f) i j ((0 : ℚ), false)).2 =
        (!(poly.within (getD2 destLon i j 0) (getD2 destLat i j 0)) ||
          getD2 (fieldMaskBits f0) i j false) ∧
      (((!(poly.within (getD2 destLon i j 0) (getD2 destLat i j 0)) ||
            getD2 (fieldMaskBits f0) i j false) ||
          (getD2 f i j ((0 : ℚ), false)).2) = true →
        (getD2 (applyMaskField (buildMask poly destLon destLat (fieldMaskBits f0) rows cols)
          rows cols f) i j ((0 : ℚ), false)).1 = -99) ∧
      (((!(poly.within (getD2 destLon i j 0) (getD2 destLat i j 0)) ||
            getD2 (fieldMaskBits f0) i j false) ||
          (getD2 f i j ((0 : ℚ), false)).2) = false →
        (getD2 (applyMaskField (buildMask poly destLon destLat (fieldMaskBits f0) rows cols)
          rows cols f) i j ((0 : ℚ), false)).1 = (getD2 f i j ((0 : ℚ), false)).1) := by
  constructor
  · rfl
  · intro f i j hi hj
    have hmask : getD2 (buildMask poly destLon destLat (fieldMaskBits f0) rows cols)
        i j false =
        (!(poly.within (getD2 destLon i j 0) (getD2 destLat i j 0)) ||
          getD2 (fieldMaskBits f0) i j false) :=
      getD2_rangeMap rows cols _ _ i j hi hj
    have happ : getD2 (applyMaskField
          (buildMask poly destLon destLat (fieldMaskBits f0) rows cols) rows cols f)
        i j ((0 : ℚ), false) =
        (if getD2 (buildMask poly destLon destLat (fieldMaskBits f0) rows cols) i j false
            || (getD2 f i j ((0 : ℚ), false)).2
          then (-99 : ℚ) else (getD2 f i j ((0 : ℚ), false)).1,
         getD2 (buildMask poly destLon destLat (fieldMaskBits f0) rows cols) i j false) :=
      getD2_rangeMap rows cols _ _ i j hi hj
    refine ⟨by rw [happ, hmask], fun hm => ?_, fun hm => ?_⟩
    · rw [happ, hmask, hm]
      simp
    · rw [happ, hmask, hm]
      simp

/-- C7 counterexample: two variables on a one-cell grid inside the polygon;
variable `B`'s source cell is invalid (`mask = true`) while the first
variable `A`'s is valid.  The output cell of `p_B` is NOT masked — the
combined mask consulted only the first variable — even though its value was
overwritten with the fill `-99` through the keep_mask OR.  The claim
requires that cell to be masked ("the corresponding source cell of that
variable was already invalid"), so the mask-exactness part fails. -/
theorem claim_C7_per_variable_mask_cex :
    resampleMaskRename (some "p") fullRegion [[0]] [[0]] 1 1
        [("A", [[(1, false)]]), ("B", [[(5, true)]])] =
      some [("p_A", [[(1, false)]]), ("p_B", [[(-99, false)]])] := by decide

/-- C7 witness: the amended mask law evaluated on a one-cell grid with one
valid variable — the output cell is unmasked and keeps its value. -/
theorem claim_C7_mask_amended_witness :
    (getD2 (applyMaskField
        (buildMask fullRegion [[0]] [[0]] (fieldMaskBits [[(1, false)]]) 1 1)
        1 1 [[((1 : ℚ), false)]]) 0 0 ((0 : ℚ), false)).2 = false ∧
    (getD2 (applyMaskField
        (buildMask fullRegion [[0]] [[0]] (fieldMaskBits [[(1, false)]]) 1 1)
        1 1 [[((1 : ℚ), false)]]) 0 0 ((0 : ℚ), false)).1 = 1 := by
  have h := (claim_C7_mask_amended "p" fullRegion [[0]] [[0]] 1 1
    "A" [[(1, false)]] []).2 [[(1, false)]] 0 0 (by decide) (by decide)
  refine ⟨by rw [h.1]; decide, ?_⟩
  have h3 := h.2.2 (by decide)
  rw [h3]
  decide

/-! ## Boundary Trimmer: structural lemmas -/

theorem scanDels_eq (e : ℚ → Bool) : ∀ (xs : List ℚ) (i : Nat),
    scanDels e xs i = List.range' i (xs.takeWhile e).length := by
  intro xs
  induction xs with
  | nil => intro i; simp [scanDels]
  | cons x t ih =>
    intro i
    rw [scanDels]
    by_cases h : e x
    · rw [if_pos h, List.takeWhile_cons_of_pos h, List.length_cons, List.range'_succ, ih]
    · rw [if_neg h, List.takeWhile_cons_of_neg h]
      simp

-- takeWhile element properties
theorem takeWhile_getD (p : ℚ → Bool) : ∀ (l : List ℚ) (i : Nat),
    i < (l.takeWhile p).length → p (l.getD i 0) = true := by
  intro l
  induction l with
  | nil => intro i h; simp at h
  | cons x t ih =>
    intro i h
    by_cases hx : p x
    · rw [List.takeWhile_cons_of_pos hx, List.length_cons] at h
      cases i with
      | zero => simpa using hx
      | succ j =>
        simp only [List.getD_cons_succ]
        exact ih j (by omega)
    · rw [List.takeWhile_cons_of_neg hx] at h
      simp at h

theorem takeWhile_breaker (p : ℚ → Bool) : ∀ (l : List ℚ),
    (l.takeWhile p).length < l.length →
    p (l.getD (l.takeWhile p).length 0) = false := by
  intro l
  induction l with
  | nil => intro h; simp at h
  | cons x t ih =>
    intro h
    by_cases hx : p x
    · simp only [List.takeWhile_cons_of_pos hx, List.length_cons] at h ⊢
      simp only [List.getD_cons_succ]
      exact ih (by omega)
    · rw [List.takeWhile_cons_of_neg hx]
      simpa using hx

theorem removeVals_append (orig : List ℚ) (d1 d2 : List Nat) (cur : List ℚ) :
    removeVals orig (d1 ++ d2) cur = removeVals orig d2 (removeVals orig d1 cur) :=
  List.foldl_append _ _ _ _

-- left fold: erasing values xs[j], xs[j+1], ..., from xs.drop j peels the front
theorem removeVals_left (xs : List ℚ) : ∀ (k j : Nat), j + k ≤ xs.length →
    removeVals xs (List.range' j k) (xs.drop j) = xs.drop (j + k) := by
  intro k
  induction k with
  | zero => intro j h; simp [removeVals]
  | succ m ih =>
    intro j h
    rw [List.range'_succ]
    show removeVals xs (j :: List.range' (j+1) m) (xs.drop j) = _
    rw [removeVals]
    rw [List.foldl_cons]
    have hj : j < xs.length := by omega
    have hdrop : xs.drop j = xs[j] :: xs.drop (j + 1) := List.drop_eq_getElem_cons hj
    have hgetD : xs.getD j 0 = xs[j] := List.getD_eq_getElem xs 0 hj
    rw [hdrop, hgetD, List.erase_cons_head]
    have := ih (j + 1) (by omega)
    rw [removeVals] at this
    rw [this]
    congr 1
    omega

-- erasing the last element of a duplicate-free prefix
theorem erase_take_succ (l : List ℚ) (hN : l.Nodup) (m : Nat) (hm : m < l.length) :
    (l.take (m + 1)).erase (l.getD m 0) = l.take m := by
  have htake : l.take (m + 1) = l.take m ++ [l[m]] := by
    rw [List.take_succ]
    congr 1
    rw [List.getElem?_eq_getElem hm]
    rfl
  have hnotmem : l[m] ∉ l.take m := by
    intro hmem
    have hsplit : l.take m ++ l.drop m = l := List.take_append_drop m l
    have hnd : (l.take m ++ l.drop m).Nodup := by rw [hsplit]; exact hN
    have hdisj := (List.nodup_append.mp hnd).2.2
    have hdropmem : l[m] ∈ l.drop m := by
      rw [List.drop_eq_getElem_cons hm]
      exact List.mem_cons_self _ _
    exact hdisj hmem hdropmem
  rw [List.getD_eq_getElem l 0 hm, htake, List.erase_append_right _ hnotmem]
  simp

-- right fold: erasing values L[len-1], L[len-2], ... peels the back
theorem removeVals_right (L : List ℚ) (hN : L.Nodup) : ∀ (k j : Nat), j + k ≤ L.length →
    (List.range' j k).foldl (fun acc i => acc.erase (L.getD (L.length - 1 - i) 0))
      (L.take (L.length - j)) = L.take (L.length - (j + k)) := by
  intro k
  induction k with
  | zero => simp
  | succ m ih =>
    intro j h
    rw [List.range'_succ, List.foldl_cons]
    have h1 : L.length - 1 - j < L.length := by omega
    have h2 : L.length - j = (L.length - 1 - j) + 1 := by omega
    rw [h2, erase_take_succ L hN _ h1]
    have h3 : L.take (L.length - 1 - j) = L.take (L.length - (j + 1)) := by congr 1; omega
    rw [h3]
    have := ih (j + 1) (by omega)
    rw [this]
    congr 1
    omega

theorem delIdxL_eq (e : ℚ → Bool) (xs : List ℚ) :
    delIdxL e xs = List.range' 0 (delCountL e xs) := scanDels_eq e _ 0

theorem delIdxR_eq (e : ℚ → Bool) (xs : List ℚ) :
    delIdxR e xs = (List.range' 0 (delCountR e xs)).map fun i => xs.length - 1 - i := by
  rw [delIdxR, scanDels_eq e _ 0]
  rfl

theorem delCountL_le (e : ℚ → Bool) (xs : List ℚ) : delCountL e xs ≤ xs.length / 2 := by
  have h1 : delCountL e xs ≤ (xs.take (xs.length / 2)).length :=
    (List.takeWhile_sublist e).length_le
  rw [List.length_take] at h1
  omega

theorem delCountR_le (e : ℚ → Bool) (xs : List ℚ) : delCountR e xs ≤ xs.length / 2 := by
  have h1 : delCountR e xs ≤ (xs.reverse.take (xs.length / 2)).length :=
    (List.takeWhile_sublist e).length_le
  rw [List.length_take] at h1
  omega

theorem foldl_congr_mem {l : List Nat} {f g : List ℚ → Nat → List ℚ} :
    ∀ (b : List ℚ), (∀ i ∈ l, ∀ acc, f acc i = g acc i) →
    l.foldl f b = l.foldl g b := by
  induction l with
  | nil => intro b _; rfl
  | cons a t ih =>
    intro b h
    rw [List.foldl_cons, List.foldl_cons, h a (List.mem_cons_self a t) b]
    exact ih _ fun i hi acc => h i (List.mem_cons_of_mem a hi) acc

-- the master characterization for duplicate-free axes
theorem trimAxis_char (e : ℚ → Bool) (xs : List ℚ) (hN : xs.Nodup) :
    trimAxis e xs =
      (xs.drop (delCountL e xs)).take (xs.length - delCountL e xs - delCountR e xs) := by
  have hL := delCountL_le e xs
  have hR := delCountR_le e xs
  rw [trimAxis, removeVals_append, delIdxL_eq, delIdxR_eq]
  have hleft : removeVals xs (List.range' 0 (delCountL e xs)) xs =
      xs.drop (delCountL e xs) := by
    have := removeVals_left xs (delCountL e xs) 0 (by omega)
    simpa using this
  rw [hleft]
  have hLlen : (xs.drop (delCountL e xs)).length = xs.length - delCountL e xs :=
    List.length_drop _ _
  have hNL : (xs.drop (delCountL e xs)).Nodup :=
    List.Nodup.sublist (List.drop_sublist (delCountL e xs) xs) hN
  have hval : ∀ i ∈ List.range' 0 (delCountR e xs), ∀ acc : List ℚ,
      acc.erase (xs.getD (xs.length - 1 - i) 0) =
      acc.erase ((xs.drop (delCountL e xs)).getD
        ((xs.drop (delCountL e xs)).length - 1 - i) 0) := by
    intro i hi acc
    have hik : i < delCountR e xs := by
      have := List.mem_range'_1.mp hi
      omega
    have hidx : (xs.drop (delCountL e xs)).length - 1 - i <
        (xs.drop (delCountL e xs)).length := by omega
    have hxi : xs.length - 1 - i < xs.length := by omega
    have hv : (xs.drop (delCountL e xs)).getD
        ((xs.drop (delCountL e xs)).length - 1 - i) 0 =
        xs.getD (xs.length - 1 - i) 0 := by
      rw [List.getD_eq_getElem _ 0 hidx, List.getD_eq_getElem xs 0 hxi,
        List.getElem_drop]
      congr 1
      omega
    exact congrArg (List.erase acc) hv.symm
  rw [removeVals, List.foldl_map]
  rw [foldl_congr_mem _ (fun i hi acc => hval i hi acc)]
  have hstart : (xs.drop (delCountL e xs)).take
      ((xs.drop (delCountL e xs)).length - 0) = xs.drop (delCountL e xs) := by simp
  have hmain := removeVals_right (xs.drop (delCountL e xs)) hNL (delCountR e xs) 0
    (by omega)
  rw [hstart] at hmain
  rw [hmain, hLlen]
  congr 1
  omega

-- every index recorded by the left scan is blank
theorem delCountL_blank (e : ℚ → Bool) (xs : List ℚ) (i : Nat)
    (hi : i < delCountL e xs) : e (xs.getD i 0) = true := by
  have hL := delCountL_le e xs
  have h1 : e ((xs.take (xs.length / 2)).getD i 0) = true :=
    takeWhile_getD e _ i hi
  have hlt : i < xs.length / 2 := by omega
  have hlen : i < xs.length := by
    have := Nat.div_le_self xs.length 2
    omega
  rwa [List.getD_eq_getElem _ 0 (by rw [List.length_take]; omega),
    List.getElem_take, ← List.getD_eq_getElem xs 0 hlen] at h1

-- every index recorded by the right scan is blank
theorem delCountR_blank (e : ℚ → Bool) (xs : List ℚ) (i : Nat)
    (hi : i < delCountR e xs) : e (xs.getD (xs.length - 1 - i) 0) = true := by
  have hR := delCountR_le e xs
  have h1 : e ((xs.reverse.take (xs.length / 2)).getD i 0) = true :=
    takeWhile_getD e _ i hi
  have hlt : i < xs.length / 2 := by omega
  have hlen0 : 0 < xs.length := by omega
  have hrevlen : i < xs.reverse.length := by rw [List.length_reverse]; omega
  rwa [List.getD_eq_getElem _ 0 (by rw [List.length_take, List.length_reverse]; omega),
    List.getElem_take, List.getElem_reverse,
    ← List.getD_eq_getElem xs 0 (by rw [List.length_reverse] at hrevlen; omega)] at h1

-- the left scan stopped at a non-blank coordinate when it did not exhaust its window
theorem delCountL_breaker (e : ℚ → Bool) (xs : List ℚ)
    (h : delCountL e xs < xs.length / 2) : e (xs.getD (delCountL e xs) 0) = false := by
  have hlen : xs.length / 2 ≤ xs.length := Nat.div_le_self _ _
  have hlt : delCountL e xs < xs.length := lt_of_lt_of_le h hlen
  have h1 : (xs.take (xs.length / 2)).length = xs.length / 2 := by
    rw [List.length_take]; omega
  have h2 := takeWhile_breaker e (xs.take (xs.length / 2)) (by rw [h1]; exact h)
  rw [List.getD_eq_getElem _ 0 (by rw [h1]; exact h), List.getElem_take] at h2
  rw [List.getD_eq_getElem xs 0 hlt]
  exact h2

theorem delCountR_breaker (e : ℚ → Bool) (xs : List ℚ)
    (h : delCountR e xs < xs.length / 2) :
    e (xs.getD (xs.length - 1 - delCountR e xs) 0) = false := by
  have hlen : xs.length / 2 ≤ xs.length := Nat.div_le_self _ _
  have h1 : (xs.reverse.take (xs.length / 2)).length = xs.length / 2 := by
    rw [List.length_take, List.length_reverse]; omega
  have h2 := takeWhile_breaker e (xs.reverse.take (xs.length / 2)) (by rw [h1]; exact h)
  have hlt : delCountR e xs < xs.length := lt_of_lt_of_le h hlen
  have h4 : xs.length - 1 - delCountR e xs < xs.length := by omega
  rw [List.getD_eq_getElem _ 0 (by rw [h1]; exact h), List.getElem_take,
    List.getElem_reverse] at h2
  rw [List.getD_eq_getElem xs 0 h4]
  exact h2

-- a value that disappears under removeVals was erased at some recorded index
theorem removeVals_removed (orig : List ℚ) : ∀ (dels : List Nat) (cur : List ℚ) (v : ℚ),
    v ∈ cur → v ∉ removeVals orig dels cur → ∃ i ∈ dels, orig.getD i 0 = v := by
  intro dels
  induction dels with
  | nil => intro cur v hv hnv; exact absurd hv hnv
  | cons d t ih =>
    intro cur v hv hnv
    rw [removeVals, List.foldl_cons] at hnv
    by_cases hmem : v ∈ cur.erase (orig.getD d 0)
    · rcases ih _ v hmem hnv with ⟨i, hit, hval⟩
      exact ⟨i, List.mem_cons_of_mem d hit, hval⟩
    · have : v = orig.getD d 0 := by
        by_contra hne
        exact hmem ((List.mem_erase_of_ne hne).mpr hv)
      exact ⟨d, List.mem_cons_self d t, this.symm⟩

-- a value removed by the trim is blank
theorem trimAxis_removed_blank (e : ℚ → Bool) (xs : List ℚ) (v : ℚ)
    (hv : v ∈ xs) (hnv : v ∉ trimAxis e xs) : e v = true := by
  rcases removeVals_removed xs _ xs v hv hnv with ⟨i, hidels, hval⟩
  rcases List.mem_append.mp hidels with hl | hr
  · rw [delIdxL_eq] at hl
    have : i < delCountL e xs := by
      have := List.mem_range'_1.mp hl
      omega
    rw [← hval]
    exact delCountL_blank e xs i this
  · rw [delIdxR_eq] at hr
    rcases List.mem_map.mp hr with ⟨i', hi', hii⟩
    have : i' < delCountR e xs := by
      have := List.mem_range'_1.mp hi'
      omega
    rw [← hval, ← hii]
    exact delCountR_blank e xs i' this

-- indices outside the two recorded edge blocks survive the trim
theorem trimAxis_mem_window (e : ℚ → Bool) (xs : List ℚ) (hN : xs.Nodup) (i : Nat)
    (h1 : delCountL e xs ≤ i) (h2 : i + delCountR e xs < xs.length) :
    xs.getD i 0 ∈ trimAxis e xs := by
  rw [trimAxis_char e xs hN]
  have hi : i < xs.length := by omega
  have hlt : i - delCountL e xs < ((xs.drop (delCountL e xs)).take
      (xs.length - delCountL e xs - delCountR e xs)).length := by
    rw [List.length_take, List.length_drop]
    omega
  have hval : ((xs.drop (delCountL e xs)).take
      (xs.length - delCountL e xs - delCountR e xs)).getD (i - delCountL e xs) 0 =
      xs.getD i 0 := by
    rw [List.getD_eq_getElem _ 0 hlt, List.getElem_take, List.getElem_drop,
      List.getD_eq_getElem xs 0 hi]
    congr 1
    omega
  rw [← hval, List.getD_eq_getElem _ 0 hlt]
  exact List.getElem_mem _

-- the trim removes at most one element per recorded index
theorem length_erase_ge (l : List ℚ) (a : ℚ) : l.length - 1 ≤ (l.erase a).length := by
  rw [List.length_erase]
  split
  · omega
  · omega

theorem removeVals_length_ge (orig : List ℚ) : ∀ (dels : List Nat) (cur : List ℚ),
    cur.length - dels.length ≤ (removeVals orig dels cur).length := by
  intro dels
  induction dels with
  | nil => intro cur; simp [removeVals]
  | cons d t ih =>
    intro cur
    rw [removeVals, List.foldl_cons]
    have h1 := ih (cur.erase (orig.getD d 0))
    have h2 := length_erase_ge cur (orig.getD d 0)
    rw [removeVals] at h1
    simp only [List.length_cons]
    omega

theorem trimAxis_length_ge (e : ℚ → Bool) (xs : List ℚ) :
    xs.length - (delCountL e xs + delCountR e xs) ≤ (trimAxis e xs).length := by
  have h := removeVals_length_ge xs (delIdxL e xs ++ delIdxR e xs) xs
  rw [List.length_append, delIdxL_eq, delIdxR_eq, List.length_map,
    List.length_range', List.length_range'] at h
  rw [trimAxis, delIdxL_eq, delIdxR_eq]
  exact h

-- a non-blank value always survives the trim (duplicate-free axis)
theorem trimAxis_mem_of_not_blank (e : ℚ → Bool) (xs : List ℚ) (hN : xs.Nodup)
    (x : ℚ) (hx : x ∈ xs) (hb : e x = false) : x ∈ trimAxis e xs := by
  rcases List.mem_iff_getElem.mp hx with ⟨i, hi, hval⟩
  have hgetD : xs.getD i 0 = x := by rw [List.getD_eq_getElem xs 0 hi, hval]
  have hiL : delCountL e xs ≤ i := by
    by_contra hlt
    push_neg at hlt
    have := delCountL_blank e xs i hlt
    rw [hgetD, hb] at this
    exact Bool.false_ne_true this
  have hiR : i + delCountR e xs < xs.length := by
    by_contra hge
    push_neg at hge
    have hi' : xs.length - 1 - i < delCountR e xs := by omega
    have := delCountR_blank e xs (xs.length - 1 - i) hi'
    have hidx : xs.length - 1 - (xs.length - 1 - i) = i := by omega
    rw [hidx, hgetD, hb] at this
    exact Bool.false_ne_true this
  rw [← hgetD]
  exact trimAxis_mem_window e xs hN i hiL hiR

-- a scan that recorded nothing leaves the axis untouched
theorem trimAxis_id_of_zero (e : ℚ → Bool) (xs : List ℚ)
    (h1 : delCountL e xs = 0) (h2 : delCountR e xs = 0) : trimAxis e xs = xs := by
  rw [trimAxis, delIdxL_eq, delIdxR_eq, h1, h2]
  rfl

-- a takeWhile run is empty when the list is empty or its head fails the test
theorem takeWhile_length_zero (p : ℚ → Bool) (l : List ℚ)
    (h : l = [] ∨ p (l.getD 0 0) = false) : (l.takeWhile p).length = 0 := by
  rcases l with _ | ⟨a, t⟩
  · simp
  · rcases h with h | h
    · exact absurd h (List.cons_ne_nil a t)
    · rw [List.takeWhile_cons_of_neg (by simpa using h)]
      rfl

-- when the scan window is empty or the first scanned coordinate is not blank,
-- nothing is recorded
theorem delCountL_zero (e : ℚ → Bool) (xs : List ℚ)
    (h : xs.length / 2 = 0 ∨ e (xs.getD 0 0) = false) : delCountL e xs = 0 := by
  rcases h with h | h
  · rw [delCountL, h]
    simp
  · apply takeWhile_length_zero
    by_cases hw : xs.length / 2 = 0
    · left; rw [hw]; rfl
    · right
      have hlen : 0 < xs.length := by
        rcases Nat.eq_zero_or_pos xs.length with h0 | h0
        · rw [h0] at hw; simp at hw
        · exact h0
      have h0w : 0 < xs.length / 2 := Nat.pos_of_ne_zero hw
      rwa [List.getD_eq_getElem _ 0 (by rw [List.length_take]; omega),
        List.getElem_take, ← List.getD_eq_getElem xs 0 hlen]

theorem delCountR_zero (e : ℚ → Bool) (xs : List ℚ)
    (h : xs.length / 2 = 0 ∨ e (xs.getD (xs.length - 1) 0) = false) :
    delCountR e xs = 0 := by
  rcases h with h | h
  · rw [delCountR, h]
    simp
  · apply takeWhile_length_zero
    by_cases hw : xs.length / 2 = 0
    · left; rw [hw]; rfl
    · right
      have hlen : 0 < xs.length := by
        rcases Nat.eq_zero_or_pos xs.length with h0 | h0
        · rw [h0] at hw; simp at hw
        · exact h0
      have h0w : 0 < xs.length / 2 := Nat.pos_of_ne_zero hw
      have h1 : xs.length - 1 < xs.length := by omega
      rwa [List.getD_eq_getElem _ 0
          (by rw [List.length_take, List.length_reverse]; omega),
        List.getElem_take, List.getElem_reverse,
        ← List.getD_eq_getElem xs 0 (by omega)]


/-! ## Boundary Trimmer: the claims -/

/-- A membership-count helper: the blank test holds exactly when the strict
containment test fails at every orthogonal coordinate. -/
theorem countP_all_false (l : List ℚ) (g : ℚ → Bool) :
    ((l.countP fun t => g t == false) == l.length) = true ↔
      ∀ t ∈ l, g t = false := by
  rw [beq_iff_eq, List.countP_eq_length]
  constructor
  · intro h t ht
    simpa using h t ht
  · intro h t ht
    simpa using h t ht

/-- The blank-column test succeeds iff no latitude on the axis places the
column strictly inside the polygon. -/
theorem emptyCol_iff (poly : Region) (lats : List ℚ) (x : ℚ) :
    emptyCol poly lats x = true ↔ ∀ y ∈ lats, poly.within x y = false :=
  countP_all_false lats (poly.within x)

/-- The blank-row test succeeds iff no longitude on the axis places the row
strictly inside the polygon. -/
theorem emptyRow_iff (poly : Region) (lons : List ℚ) (y : ℚ) :
    emptyRow poly lons y = true ↔ ∀ x ∈ lons, poly.within x y = false :=
  countP_all_false lons (fun x => poly.within x y)

/-- The blank-column test fails iff some latitude of the axis places the
column strictly inside the polygon. -/
theorem emptyCol_eq_false_iff (poly : Region) (lats : List ℚ) (x : ℚ) :
    emptyCol poly lats x = false ↔ ∃ y ∈ lats, poly.within x y = true := by
  constructor
  · intro h
    by_contra hno
    push_neg at hno
    have hall : ∀ y ∈ lats, poly.within x y = false := fun y hy =>
      Bool.eq_false_iff.mpr (hno y hy)
    rw [(emptyCol_iff poly lats x).mpr hall] at h
    exact absurd h (by simp)
  · rintro ⟨y, hy, hw⟩
    by_contra hne
    have htrue : emptyCol poly lats x = true :=
      eq_true_of_ne_false hne
    have := (emptyCol_iff poly lats x).mp htrue y hy
    rw [hw] at this
    exact absurd this (by simp)

/-- The blank-row test fails iff some longitude of the axis places the row
strictly inside the polygon. -/
theorem emptyRow_eq_false_iff (poly : Region) (lons : List ℚ) (y : ℚ) :
    emptyRow poly lons y = false ↔ ∃ x ∈ lons, poly.within x y = true := by
  constructor
  · intro h
    by_contra hno
    push_neg at hno
    have hall : ∀ x ∈ lons, poly.within x y = false := fun x hx =>
      Bool.eq_false_iff.mpr (hno x hx)
    rw [(emptyRow_iff poly lons y).mpr hall] at h
    exact absurd h (by simp)
  · rintro ⟨x, hx, hw⟩
    by_contra hne
    have htrue : emptyRow poly lons y = true :=
      eq_true_of_ne_false hne
    have := (emptyRow_iff poly lons y).mp htrue x hx
    rw [hw] at this
    exact absurd this (by simp)

/-- C1: Boundary Trimmer safety.  For duplicate-free axes (as produced by
`np.arange`): a longitude value removed by the trim has no strictly-interior
point at any latitude of the axis, and symmetrically for latitudes; and only
the two contiguous blank edge blocks recorded by the scans are removed — any
coordinate outside those blocks, in particular any blank interior
row/column, survives. -/
theorem claim_C1_trim_safety (poly : Region) (lons lats : List ℚ)
    (hlon : lons.Nodup) (hlat : lats.Nodup) :
    (∀ v ∈ lons, v ∉ (removeBlankFrame poly lons lats).1 →
      ∀ y ∈ lats, poly.within v y = false) ∧
    (∀ w ∈ lats, w ∉ (removeBlankFrame poly lons lats).2 →
      ∀ x ∈ lons, poly.within x w = false) ∧
    (∀ i : Nat, delCountL (emptyCol poly lats) lons ≤ i →
      i + delCountR (emptyCol poly lats) lons < lons.length →
      lons.getD i 0 ∈ (removeBlankFrame poly lons lats).1) ∧
    (∀ i : Nat, delCountL (emptyRow poly lons) lats ≤ i →
      i + delCountR (emptyRow poly lons) lats < lats.length →
      lats.getD i 0 ∈ (removeBlankFrame poly lons lats).2) := by
  refine ⟨?_, ?_, ?_, ?_⟩
  · intro v hv hnv y hy
    have hb := trimAxis_removed_blank (emptyCol poly lats) lons v hv hnv
    exact (emptyCol_iff poly lats v).mp hb y hy
  · intro w hw hnw x hx
    have hb := trimAxis_removed_blank (emptyRow poly lons) lats w hw hnw
    exact (emptyRow_iff poly lons w).mp hb x hx
  · intro i h1 h2
    exact trimAxis_mem_window (emptyCol poly lats) lons hlon i h1 h2
  · intro i h1 h2
    exact trimAxis_mem_window (emptyRow poly lons) lats hlat i h1 h2

/-- C1 witness: the square country `[1,2]²` on axes `[0,1,2,3]`: the trim
removes the blank edge lines `0` and `3`, and the safety law evaluates: the
removed longitude `0` is outside at every latitude, and coordinate `1`
(outside the recorded blocks) survives. -/
theorem claim_C1_trim_safety_witness :
    ((0 : ℚ) ∉ (removeBlankFrame boxRegion12 [0, 1, 2, 3] [0, 1, 2, 3]).1 →
      ∀ y ∈ ([0, 1, 2, 3] : List ℚ), boxRegion12.within 0 y = false) ∧
    ([0, 1, 2, 3] : List ℚ).getD 1 0 ∈
      (removeBlankFrame boxRegion12 [0, 1, 2, 3] [0, 1, 2, 3]).1 := by
  have h := claim_C1_trim_safety boxRegion12 [0, 1, 2, 3] [0, 1, 2, 3]
    (by decide) (by decide)
  exact ⟨h.1 0 (by decide), h.2.2.1 1 (by decide) (by decide)⟩

/-- C9: each scan records at most `⌊n/2⌋` deletions per side, so for an
odd-length axis the middle coordinate is never removed — even when no
lattice point at all lies inside the polygon — and the trimmed axis is
always non-empty. -/
theorem claim_C9_midpoint_cap (poly : Region) (lons lats : List ℚ) :
    delCountL (emptyCol poly lats) lons ≤ lons.length / 2 ∧
    delCountR (emptyCol poly lats) lons ≤ lons.length / 2 ∧
    delCountL (emptyRow poly lons) lats ≤ lats.length / 2 ∧
    delCountR (emptyRow poly lons) lats ≤ lats.length / 2 ∧
    (Odd lons.length → (removeBlankFrame poly lons lats).1 ≠ []) ∧
    (Odd lats.length → (removeBlankFrame poly lons lats).2 ≠ []) ∧
    (lons.Nodup → Odd lons.length →
      lons.getD (lons.length / 2) 0 ∈ (removeBlankFrame poly lons lats).1) ∧
    (lats.Nodup → Odd lats.length →
      lats.getD (lats.length / 2) 0 ∈ (removeBlankFrame poly lons lats).2) := by
  refine ⟨delCountL_le _ _, delCountR_le _ _, delCountL_le _ _, delCountR_le _ _,
    ?_, ?_, ?_, ?_⟩
  · intro hodd
    apply List.ne_nil_of_length_pos
    show 0 < (trimAxis (emptyCol poly lats) lons).length
    have hlen := trimAxis_length_ge (emptyCol poly lats) lons
    have hL := delCountL_le (emptyCol poly lats) lons
    have hR := delCountR_le (emptyCol poly lats) lons
    rcases hodd with ⟨m, hm⟩
    omega
  · intro hodd
    apply List.ne_nil_of_length_pos
    show 0 < (trimAxis (emptyRow poly lons) lats).length
    have hlen := trimAxis_length_ge (emptyRow poly lons) lats
    have hL := delCountL_le (emptyRow poly lons) lats
    have hR := delCountR_le (emptyRow poly lons) lats
    rcases hodd with ⟨m, hm⟩
    omega
  · intro hN hodd
    apply trimAxis_mem_window (emptyCol poly lats) lons hN
    · exact delCountL_le _ _
    · have hR := delCountR_le (emptyCol poly lats) lons
      rcases hodd with ⟨m, hm⟩
      omega
  · intro hN hodd
    apply trimAxis_mem_window (emptyRow poly lons) lats hN
    · exact delCountL_le _ _
    · have hR := delCountR_le (emptyRow poly lons) lats
      rcases hodd with ⟨m, hm⟩
      omega

/-- C9 witness: a polygon with no interior point at all, on odd axes
`[0, 1, 2]`: the trimmed axes keep their middle coordinate `1` and are
non-empty. -/
theorem claim_C9_midpoint_cap_witness :
    (removeBlankFrame emptyRegion [0, 1, 2] [0, 1, 2]).1 ≠ [] ∧
    ([0, 1, 2] : List ℚ).getD 1 0 ∈
      (removeBlankFrame emptyRegion [0, 1, 2] [0, 1, 2]).1 := by
  have h := claim_C9_midpoint_cap emptyRegion [0, 1, 2] [0, 1, 2]
  exact ⟨h.2.2.2.2.1 (by decide), h.2.2.2.2.2.2.1 (by decide) (by decide)⟩

/-- Reading a surviving coordinate of the trimmed axis by position. -/
theorem trimAxis_getD (e : ℚ → Bool) (xs : List ℚ) (hN : xs.Nodup) (j : Nat)
    (hj : j < xs.length - delCountL e xs - delCountR e xs) :
    (trimAxis e xs).getD j 0 = xs.getD (delCountL e xs + j) 0 := by
  have hL := delCountL_le e xs
  have hR := delCountR_le e xs
  rw [trimAxis_char e xs hN]
  rw [List.getD_eq_getElem _ 0 (by
    rw [List.length_take, List.length_drop]
    omega)]
  rw [List.getElem_take, List.getElem_drop]
  rw [List.getD_eq_getElem xs 0 (by omega)]

/-- The length of the trimmed axis (duplicate-free case). -/
theorem trimAxis_length (e : ℚ → Bool) (xs : List ℚ) (hN : xs.Nodup) :
    (trimAxis e xs).length = xs.length - delCountL e xs - delCountR e xs := by
  have hL := delCountL_le e xs
  have hR := delCountR_le e xs
  rw [trimAxis_char e xs hN, List.length_take, List.length_drop]
  omega

/-- After a first longitude pass in which both scans stopped on a non-blank
column inside their windows, the second pass records no longitude deletions:
the new edge columns have interior witnesses whose latitudes survive the
latitude trim. -/
theorem pass2_lon_zero (poly : Region) (lons lats : List ℚ)
    (hlon : lons.Nodup) (hlat : lats.Nodup)
    (hkL : delCountL (emptyCol poly lats) lons < lons.length / 2)
    (hkR : delCountR (emptyCol poly lats) lons < lons.length / 2) :
    delCountL (emptyCol poly (trimAxis (emptyRow poly lons) lats))
        (trimAxis (emptyCol poly lats) lons) = 0 ∧
    delCountR (emptyCol poly (trimAxis (emptyRow poly lons) lats))
        (trimAxis (emptyCol poly lats) lons) = 0 := by
  have hsum : delCountL (emptyCol poly lats) lons +
      delCountR (emptyCol poly lats) lons < lons.length := by omega
  have hlen := trimAxis_length (emptyCol poly lats) lons hlon
  constructor
  · apply delCountL_zero
    right
    have hfirst : (trimAxis (emptyCol poly lats) lons).getD 0 0 =
        lons.getD (delCountL (emptyCol poly lats) lons) 0 := by
      rw [trimAxis_getD (emptyCol poly lats) lons hlon 0 (by omega), Nat.add_zero]
    rw [hfirst]
    have hbreak := delCountL_breaker (emptyCol poly lats) lons hkL
    obtain ⟨y0, hy0, hw⟩ := (emptyCol_eq_false_iff poly lats _).mp hbreak
    have hx0mem : lons.getD (delCountL (emptyCol poly lats) lons) 0 ∈ lons := by
      rw [List.getD_eq_getElem lons 0 (by omega)]
      exact List.getElem_mem _
    have hy0N : y0 ∈ trimAxis (emptyRow poly lons) lats := by
      apply trimAxis_mem_of_not_blank (emptyRow poly lons) lats hlat y0 hy0
      exact (emptyRow_eq_false_iff poly lons y0).mpr ⟨_, hx0mem, hw⟩
    exact (emptyCol_eq_false_iff poly _ _).mpr ⟨y0, hy0N, hw⟩
  · apply delCountR_zero
    right
    have hlast : (trimAxis (emptyCol poly lats) lons).getD
        ((trimAxis (emptyCol poly lats) lons).length - 1) 0 =
        lons.getD (lons.length - 1 - delCountR (emptyCol poly lats) lons) 0 := by
      rw [hlen]
      rw [trimAxis_getD (emptyCol poly lats) lons hlon _ (by omega)]
      congr 1
      omega
    rw [hlast]
    have hbreak := delCountR_breaker (emptyCol poly lats) lons hkR
    obtain ⟨y0, hy0, hw⟩ := (emptyCol_eq_false_iff poly lats _).mp hbreak
    have hx0mem : lons.getD (lons.length - 1 -
        delCountR (emptyCol poly lats) lons) 0 ∈ lons := by
      rw [List.getD_eq_getElem lons 0 (by omega)]
      exact List.getElem_mem _
    have hy0N : y0 ∈ trimAxis (emptyRow poly lons) lats := by
      apply trimAxis_mem_of_not_blank (emptyRow poly lons) lats hlat y0 hy0
      exact (emptyRow_eq_false_iff poly lons y0).mpr ⟨_, hx0mem, hw⟩
    exact (emptyCol_eq_false_iff poly _ _).mpr ⟨y0, hy0N, hw⟩

/-- Symmetric to `pass2_lon_zero` for the latitude axis. -/
theorem pass2_lat_zero (poly : Region) (lons lats : List ℚ)
    (hlon : lons.Nodup) (hlat : lats.Nodup)
    (hkB : delCountL (emptyRow poly lons) lats < lats.length / 2)
    (hkT : delCountR (emptyRow poly lons) lats < lats.length / 2) :
    delCountL (emptyRow poly (trimAxis (emptyCol poly lats) lons))
        (trimAxis (emptyRow poly lons) lats) = 0 ∧
    delCountR (emptyRow poly (trimAxis (emptyCol poly lats) lons))
        (trimAxis (emptyRow poly lons) lats) = 0 := by
  have hsum : delCountL (emptyRow poly lons) lats +
      delCountR (emptyRow poly lons) lats < lats.length := by omega
  have hlen := trimAxis_length (emptyRow poly lons) lats hlat
  constructor
  · apply delCountL_zero
    right
    have hfirst : (trimAxis (emptyRow poly lons) lats).getD 0 0 =
        lats.getD (delCountL (emptyRow poly lons) lats) 0 := by
      rw [trimAxis_getD (emptyRow poly lons) lats hlat 0 (by omega), Nat.add_zero]
    rw [hfirst]
    have hbreak := delCountL_breaker (emptyRow poly lons) lats hkB
    obtain ⟨x0, hx0, hw⟩ := (emptyRow_eq_false_iff poly lons _).mp hbreak
    have hy0mem : lats.getD (delCountL (emptyRow poly lons) lats) 0 ∈ lats := by
      rw [List.getD_eq_getElem lats 0 (by omega)]
      exact List.getElem_mem _
    have hx0N : x0 ∈ trimAxis (emptyCol poly lats) lons := by
      apply trimAxis_mem_of_not_blank (emptyCol poly lats) lons hlon x0 hx0
      exact (emptyCol_eq_false_iff poly lats x0).mpr ⟨_, hy0mem, hw⟩
    exact (emptyRow_eq_false_iff poly _ _).mpr ⟨x0, hx0N, hw⟩
  · apply delCountR_zero
    right
    have hlast : (trimAxis (emptyRow poly lons) lats).getD
        ((trimAxis (emptyRow poly lons) lats).length - 1) 0 =
        lats.getD (lats.length - 1 - delCountR (emptyRow poly lons) lats) 0 := by
      rw [hlen]
      rw [trimAxis_getD (emptyRow poly lons) lats hlat _ (by omega)]
      congr 1
      omega
    rw [hlast]
    have hbreak := delCountR_breaker (emptyRow poly lons) lats hkT
    obtain ⟨x0, hx0, hw⟩ := (emptyRow_eq_false_iff poly lons _).mp hbreak
    have hy0mem : lats.getD (lats.length - 1 -
        delCountR (emptyRow poly lons) lats) 0 ∈ lats := by
      rw [List.getD_eq_getElem lats 0 (by omega)]
      exact List.getElem_mem _
    have hx0N : x0 ∈ trimAxis (emptyCol poly lats) lons := by
      apply trimAxis_mem_of_not_blank (emptyCol poly lats) lons hlon x0 hx0
      exact (emptyCol_eq_false_iff poly lats x0).mpr ⟨_, hy0mem, hw⟩
    exact (emptyRow_eq_false_iff poly _ _).mpr ⟨x0, hx0N, hw⟩

/-- C3 counterexample: the trim is NOT idempotent.  For the vertical strip
`4 ≤ x ≤ 5` on axes `lons = [0..6]`, `lats = [0]`, the left scan exhausts
its `⌊7/2⌋ = 3`-wide window leaving the blank column `3` on the new edge; a
second pass removes it. -/
theorem claim_C3_trim_not_idempotent_cex :
    removeBlankFrame stripRegion
        (removeBlankFrame stripRegion [0, 1, 2, 3, 4, 5, 6] [0]).1
        (removeBlankFrame stripRegion [0, 1, 2, 3, 4, 5, 6] [0]).2 ≠
      removeBlankFrame stripRegion [0, 1, 2, 3, 4, 5, 6] [0] := by decide

/-- C3 (amended): the trim IS idempotent whenever, on each axis, either the
scan window is empty (`⌊n/2⌋ = 0`) or both of that axis's first-pass scans
stopped on a non-blank line strictly inside their window (deletion count
`< ⌊n/2⌋`), for duplicate-free axes.  In general a first pass whose scan
exhausts its window can leave a blank line on the new edge, and a second
pass removes more (see the counterexample). -/
theorem claim_C3_trim_idempotent_amended (poly : Region) (lons lats : List ℚ)
    (hlon : lons.Nodup) (hlat : lats.Nodup)
    (hLonScan : lons.length / 2 = 0 ∨
      (delCountL (emptyCol poly lats) lons < lons.length / 2 ∧
       delCountR (emptyCol poly lats) lons < lons.length / 2))
    (hLatScan : lats.length / 2 = 0 ∨
      (delCountL (emptyRow poly lons) lats < lats.length / 2 ∧
       delCountR (emptyRow poly lons) lats < lats.length / 2)) :
    removeBlankFrame poly (removeBlankFrame poly lons lats).1
      (removeBlankFrame poly lons lats).2 = removeBlankFrame poly lons lats := by
  have hzLon : delCountL (emptyCol poly (trimAxis (emptyRow poly lons) lats))
      (trimAxis (emptyCol poly lats) lons) = 0 ∧
      delCountR (emptyCol poly (trimAxis (emptyRow poly lons) lats))
      (trimAxis (emptyCol poly lats) lons) = 0 := by
    rcases hLonScan with hw0 | ⟨hkL, hkR⟩
    · have hkL0 : delCountL (emptyCol poly lats) lons = 0 := by
        have := delCountL_le (emptyCol poly lats) lons
        omega
      have hkR0 : delCountR (emptyCol poly lats) lons = 0 := by
        have := delCountR_le (emptyCol poly lats) lons
        omega
      have hid : trimAxis (emptyCol poly lats) lons = lons :=
        trimAxis_id_of_zero _ _ hkL0 hkR0
      constructor
      · apply delCountL_zero
        left
        rw [hid]
        exact hw0
      · apply delCountR_zero
        left
        rw [hid]
        exact hw0
    · exact pass2_lon_zero poly lons lats hlon hlat hkL hkR
  have hzLat : delCountL (emptyRow poly (trimAxis (emptyCol poly lats) lons))
      (trimAxis (emptyRow poly lons) lats) = 0 ∧
      delCountR (emptyRow poly (trimAxis (emptyCol poly lats) lons))
      (trimAxis (emptyRow poly lons) lats) = 0 := by
    rcases hLatScan with hw0 | ⟨hkB, hkT⟩
    · have hkB0 : delCountL (emptyRow poly lons) lats = 0 := by
        have := delCountL_le (emptyRow poly lons) lats
        omega
      have hkT0 : delCountR (emptyRow poly lons) lats = 0 := by
        have := delCountR_le (emptyRow poly lons) lats
        omega
      have hid : trimAxis (emptyRow poly lons) lats = lats :=
        trimAxis_id_of_zero _ _ hkB0 hkT0
      constructor
      · apply delCountL_zero
        left
        rw [hid]
        exact hw0
      · apply delCountR_zero
        left
        rw [hid]
        exact hw0
    · exact pass2_lat_zero poly lons lats hlon hlat hkB hkT
  show (trimAxis (emptyCol poly (trimAxis (emptyRow poly lons) lats))
          (trimAxis (emptyCol poly lats) lons),
        trimAxis (emptyRow poly (trimAxis (emptyCol poly lats) lons))
          (trimAxis (emptyRow poly lons) lats)) =
    removeBlankFrame poly lons lats
  rw [trimAxis_id_of_zero _ _ hzLon.1 hzLon.2,
    trimAxis_id_of_zero _ _ hzLat.1 hzLat.2]
  rfl

/-- C3 witness: the square country `[1,2]²` on axes `[0,1,2,3]`: every scan
stops at a non-blank line inside its window and a second trim changes
nothing. -/
theorem claim_C3_trim_idempotent_amended_witness :
    removeBlankFrame boxRegion12
        (removeBlankFrame boxRegion12 [0, 1, 2, 3] [0, 1, 2, 3]).1
        (removeBlankFrame boxRegion12 [0, 1, 2, 3] [0, 1, 2, 3]).2 =
      removeBlankFrame boxRegion12 [0, 1, 2, 3] [0, 1, 2, 3] :=
  claim_C3_trim_idempotent_amended boxRegion12 [0, 1, 2, 3] [0, 1, 2, 3]
    (by decide) (by decide)
    (Or.inr ⟨by decide, by decide⟩) (Or.inr ⟨by decide, by decide⟩)

/-! ## Country Grid Assembler: gridpoint selection -/

/-- C4 (amended): `get_country_gridpoints()` returns a subset (not always a
strict one) of the bbox-filtered gridpoints; every returned point satisfies
the inclusive containment test; conversely each bbox gridpoint passing the
inclusive test is returned — in particular a gridpoint exactly on the
boundary (`contains` true, `within` false) passes point selection; and the
trimmer counts such a boundary point as outside: a column whose points all
fail the strict test is blank for the trimmer regardless of `contains`. -/
theorem claim_C4_gridpoints_amended (g : CountryGrid) :
    (∀ q ∈ g.get_country_gridpoints,
      q.1 ∈ g.get_bbox_grid_points g.shp.bbox.latmin g.shp.bbox.latmax
        g.shp.bbox.lonmin g.shp.bbox.lonmax ∧
      g.shp.poly.contains q.2.1 q.2.2 = true) ∧
    (∀ gpi ∈ g.get_bbox_grid_points g.shp.bbox.latmin g.shp.bbox.latmax
        g.shp.bbox.lonmin g.shp.bbox.lonmax,
      g.shp.poly.contains (g.points.getD gpi (0, 0)).1 (g.points.getD gpi (0, 0)).2 = true →
      g.shp.poly.within (g.points.getD gpi (0, 0)).1 (g.points.getD gpi (0, 0)).2 = false →
      gpi ∈ g.get_country_gridpoints.map Prod.fst) ∧
    (∀ (lats : List ℚ) (x : ℚ),
      (∀ y ∈ lats, g.shp.poly.within x y = false) →
      emptyCol g.shp.poly lats x = true) := by
  refine ⟨?_, ?_, ?_⟩
  · intro q hq
    unfold CountryGrid.get_country_gridpoints at hq
    rcases List.mem_map.mp hq with ⟨gpi, hgpi, hfq⟩
    rcases List.mem_filter.mp hgpi with ⟨hbox, hcont⟩
    subst hfq
    exact ⟨hbox, hcont⟩
  · intro gpi hbox hcont _hwithin
    unfold CountryGrid.get_country_gridpoints
    refine List.mem_map.mpr
      ⟨(gpi, (g.points.getD gpi (0, 0)).1, (g.points.getD gpi (0, 0)).2), ?_, rfl⟩
    exact List.mem_map.mpr ⟨gpi, List.mem_filter.mpr ⟨hbox, hcont⟩, rfl⟩
  · intro lats x h
    exact (emptyCol_iff g.shp.poly lats x).mpr h

/-- C4 counterexample to strictness: for the square country of the spec's
end-to-end scenario at resolution 1, all four bbox gridpoints lie strictly
inside the polygon, so `get_country_gridpoints` returns ALL bbox-filtered
points — a subset, but not a strict subset. -/
theorem claim_C4_strict_subset_cex :
    ((CountryGrid.build 1 shpSquare 1).get_country_gridpoints).map Prod.fst =
      (CountryGrid.build 1 shpSquare 1).get_bbox_grid_points 0 2 0 2 := by decide

/-- C4 witness: the amended subset/containment law at the concrete square
country grid and its first gridpoint `(1/2, 1/2)`. -/
theorem claim_C4_gridpoints_amended_witness :
    (0 : Nat) ∈ (CountryGrid.build 1 shpSquare 1).get_bbox_grid_points 0 2 0 2 ∧
    squareRegion.contains (1/2) (1/2) = true := by
  have h := (claim_C4_gridpoints_amended (CountryGrid.build 1 shpSquare 1)).1
    (0, 1/2, 1/2) (by decide)
  exact ⟨h.1, h.2⟩

end Poets
